import Mathlib

/-!
Verification development for the riot test-matrix runner
(source: src/riot/riot.py).

The Python source is shallowly embedded below.  Python dicts are modelled
as association lists with unique keys kept in insertion order; Python
floats used as interpreter version tags are modelled by their version-tag
strings; regular-expression patterns are modelled as boolean predicates on
names; external subprocess execution is modelled by an oracle giving each
processed instance an outcome.
-/

set_option linter.unusedVariables false

namespace Riot

/-- Python truthiness of an optional string: both None and the empty
string are falsy (riot.py lines 42, 46, 58, 69). -/
def strTruthy : Option String → Bool
  | none => false
  | some s => !(s == "")

/-- First-match lookup in an association list, i.e. Python dict lookup
under the unique-key invariant. -/
def dictLookup (d : List (String × α)) (k : String) : Option α :=
  (d.find? (fun p => p.1 == k)).map (fun p => p.2)

/-- Python dict assignment d[k] = v: replace the entry in place when the
key is present, else append the new entry at the end (insertion order). -/
def dictInsert : List (String × α) → String → α → List (String × α)
  | [], k, v => [(k, v)]
  | p :: rest, k, v => if p.1 == k then (k, v) :: rest else p :: dictInsert rest k v

/-- Python d.update(e): assign every entry of e into d, in the order of e. -/
def dictUpdate (d e : List (String × α)) : List (String × α) :=
  e.foldl (fun acc p => dictInsert acc p.1 p.2) d

/-- itertools.product on a list of pools: one output list per choice of
one element from each pool, rightmost pool varying fastest; the product
of zero pools is the single empty choice (riot.py line 402). -/
def listProduct : List (List α) → List (List α)
  | [] => [[]]
  | pool :: rest => pool.flatMap (fun x => (listProduct rest).map (fun t => x :: t))

/-- Embedding of expand_specs (riot.py lines 392-403): pair each axis
name with each of its candidate values, then take the Cartesian product
of the axes in mapping order. -/
def expandSpecs (specs : List (String × List α)) : List (List (String × α)) :=
  listProduct (specs.map (fun p => p.2.map (fun v => (p.1, v))))

/-- A value in a venv env spec: either a literal string or a deferred
callable taking the resolved package mapping and possibly returning no
value (riot.py line 211 and spec section 3). -/
inductive EnvVal : Type where
  | lit (s : String)
  | computed (f : List (String × String) → Option String)

/-- Embedding of the Venv tree node (riot.py lines 27-34).  Interpreter
versions (pys, floats in the source) are modelled by their version-tag
strings; package candidate versions may be None, meaning the package is
excluded from that combination. -/
inductive Venv : Type where
  | mk (name : Option String) (command : Option String) (pys : List String)
      (pkgs : List (String × List (Option String)))
      (env : List (String × List EnvVal))
      (venvs : List Venv)

def Venv.name : Venv → Option String
  | .mk n _ _ _ _ _ => n

def Venv.command : Venv → Option String
  | .mk _ c _ _ _ _ => c

def Venv.pys : Venv → List String
  | .mk _ _ p _ _ _ => p

def Venv.pkgs : Venv → List (String × List (Option String))
  | .mk _ _ _ pk _ _ => pk

def Venv.env : Venv → List (String × List EnvVal)
  | .mk _ _ _ _ e _ => e

def Venv.venvs : Venv → List Venv
  | .mk _ _ _ _ _ vs => vs

/-- One iteration of the accumulation loop in Venv.resolve (riot.py
lines 41-49): truthy scalars of the later chain element override the
accumulator, and the env and pkgs mappings are updated key-wise. -/
def resolveStep (acc p : Venv) : Venv :=
  Venv.mk
    (if strTruthy p.name then p.name else acc.name)
    (if strTruthy p.command then p.command else acc.command)
    (if p.pys.isEmpty then acc.pys else p.pys)
    (dictUpdate acc.pkgs p.pkgs)
    (dictUpdate acc.env p.env)
    acc.venvs

/-- Embedding of Venv.resolve (riot.py lines 36-50): an empty ancestor
chain returns the node itself; otherwise the chain parents ++ [self] is
folded, oldest first, into a fresh empty venv. -/
def Venv.resolve (v : Venv) (parents : List Venv) : Venv :=
  if parents.isEmpty then v
  else (parents ++ [v]).foldl resolveStep (Venv.mk none none [] [] [] [])

/-- Embedding of VenvInstance (riot.py lines 86-92). -/
structure VenvInstance : Type where
  name : Option String
  py : String
  command : Option String
  env : List (String × EnvVal)
  pkgs : List (String × Option String)

/-- The child filter in Venv.instances (riot.py line 58): a child whose
name is truthy and fails the pattern is pruned together with its whole
subtree. -/
def childSkipped (c : Venv) (pat : String → Bool) : Bool :=
  match c.name with
  | some n => !(n == "") && !(pat n)
  | none => false

mutual
/-- Embedding of the generator Venv.instances (riot.py lines 52-83).
The child loop has no break statement, so its else block always runs:
first every unpruned child yields its instances (with this node appended
to the ancestor chain), then, if the node resolved against its ancestors
is runnable (truthy command and nonempty interpreter list), the node
yields its own expansion: env combinations outermost, then interpreters,
then package combinations. -/
def Venv.instances : Venv → (String → Bool) → List Venv → List VenvInstance
  | .mk n c pys pkgs env venvs, pat, parents =>
    childrenInstances venvs pat (parents ++ [Venv.mk n c pys pkgs env venvs]) ++
      (let r := (Venv.mk n c pys pkgs env venvs).resolve parents
       if !(strTruthy r.command) || r.pys.isEmpty then []
       else
         (expandSpecs r.env).flatMap (fun e =>
           r.pys.flatMap (fun py =>
             (expandSpecs r.pkgs).map (fun pk =>
               VenvInstance.mk r.name py r.command e pk))))

/-- The child loop of Venv.instances (riot.py lines 57-64). -/
def childrenInstances : List Venv → (String → Bool) → List Venv → List VenvInstance
  | [], _, _ => []
  | c :: rest, pat, parents =>
    (if childSkipped c pat then [] else c.instances pat parents) ++
      childrenInstances rest pat parents
end

/-- Removal of every occurrence of one character from a string.  The
source uses s.replace(c, "") with a single-character pattern, which is
exactly character filtering. -/
def removeChar (s : String) (c : Char) : String :=
  String.mk (s.data.filter (fun ch => !(ch == c)))

/-- Embedding of rmchars (riot.py lines 299-302): strip every character
of chars from s, one character at a time. -/
def rmchars (chars : String) (s : String) : String :=
  chars.data.foldl removeChar s

/-- Embedding of get_pep_dep (riot.py lines 305-310). -/
def getPepDep (libname : String) (version : String) : String :=
  libname ++ version

/-- Embedding of get_base_venv_path (riot.py lines 317-322); the dots of
the version tag are removed.  Interpreter versions are already modelled
as their tag strings. -/
def getBaseVenvPath (py : String) : String :=
  ".riot/.venv_py" ++ removeChar py (Char.ofNat 46)

/-- The dict comprehension in Session.run (riot.py lines 154-156):
keep only package entries whose selected version is not None; as in a
Python dict comprehension, a later entry with the same name wins. -/
def instPkgsDict (pkgs : List (String × Option String)) : List (String × String) :=
  pkgs.foldl
    (fun d p => match p.2 with
      | none => d
      | some ver => dictInsert d p.1 ver) []

/-- The normalized, underscore-joined package token built in Session.run
(riot.py lines 160-162): for each selected package, its name followed by
its version with the characters < = > . , removed. -/
def venvNameToken (pkgs : List (String × String)) : String :=
  String.intercalate "_" (pkgs.map (fun p => p.1 ++ rmchars "<=>.," p.2))

/-- The derived per-instance environment name computed in Session.run
(riot.py lines 158-169): the base interpreter venv path, extended by the
normalized package token when the instance selects packages. -/
def derivedVenvName (py : String) (pkgs : List (String × String)) : String :=
  if pkgs.isEmpty then getBaseVenvPath py
  else getBaseVenvPath py ++ "_" ++ venvNameToken pkgs

/-- The quoted pip requirement string built in Session.run (riot.py
lines 164-169). -/
def derivedPkgStr (pkgs : List (String × String)) : String :=
  if pkgs.isEmpty then ""
  else
    let q := String.singleton (Char.ofNat 39)
    String.intercalate " " (pkgs.map (fun p => q ++ getPepDep p.1 p.2 ++ q))

/-- Embedding of VenvInstanceResult (riot.py lines 95-100); the code
field is default-initialized to the nonzero sentinel 1. -/
structure VenvInstanceResult : Type where
  inst : VenvInstance
  venv_name : String
  pkgstr : String
  code : Int

/-- Which guarded external command inside the try block of Session.run
failed: the base-venv copy (riot.py line 185), the dependency install
(line 196) or the test command itself (line 224).  The first two only
arise for instances that select packages.  All three raise CmdFailure
carrying the return code of the failed subprocess, which run_cmd raises
only when that code is nonzero (riot.py lines 344-345). -/
inductive FailStage : Type where
  | cloneStep
  | installStep
  | cmdStep
deriving DecidableEq

/-- Oracle outcome of the external world for one processed instance of
the loop in Session.run (riot.py lines 176-241): every subprocess
succeeds, or one raises CmdFailure with the stated nonzero code, or a
KeyboardInterrupt arrives, or an unexpected exception occurs. -/
inductive ExecOutcome : Type where
  | ok
  | fail (stage : FailStage) (code : Int)
  | interrupt
  | fatal
deriving DecidableEq

/-- How the instance loop of Session.run ended: normally, by the break
of the KeyboardInterrupt handler (riot.py line 234), or by the
sys.exit(1) of the unexpected-exception handler (line 237). -/
inductive RunEnd : Type where
  | normal
  | interrupted
  | fatalExit
deriving DecidableEq

/-- The result code recorded for one instance: 0 from the else branch on
success (riot.py line 239), the CmdFailure code on a contained failure
(line 230), 1 on KeyboardInterrupt (line 233), and the untouched default
1 when an unexpected exception aborts the process. -/
def outcomeCode : ExecOutcome → Int
  | .ok => 0
  | .fail _ c => c
  | .interrupt => 1
  | .fatal => 1

/-- The result record created for one instance in Session.run (riot.py
lines 158-174), finalized with the given code. -/
def mkResult (i : VenvInstance) (code : Int) : VenvInstanceResult :=
  let d := instPkgsDict i.pkgs
  ⟨i, derivedVenvName i.py d, derivedPkgStr d, code⟩

/-- The per-instance loop of Session.run (riot.py lines 146-241), with
the world oracle giving the outcome of the k-th processed instance.  On
CmdFailure the result carries the failure code and the loop continues;
on KeyboardInterrupt the result carries code 1 and the loop breaks, the
finally clause still appending the result; on an unexpected exception
the result keeps its default code 1, is appended by the finally clause,
and the whole process exits with status 1. -/
def runLoop (world : Nat → ExecOutcome) (k : Nat) :
    List VenvInstance → List VenvInstanceResult × RunEnd
  | [] => ([], .normal)
  | i :: rest =>
    match world k with
    | .ok =>
      let (rs, e) := runLoop world (k + 1) rest
      (mkResult i 0 :: rs, e)
    | .fail _ c =>
      let (rs, e) := runLoop world (k + 1) rest
      (mkResult i c :: rs, e)
    | .interrupt => ([mkResult i 1], .interrupted)
    | .fatal => ([mkResult i 1], .fatalExit)

/-- Embedding of the execution environment built for one instance
(riot.py lines 206-215): start from the inherited host variables when
pass_env is set, else from an empty mapping, then overlay the resolved
instance variables; a deferred value is applied to the resolved package
mapping and omitted when it returns no value. -/
def buildEnv (passEnv : Bool) (host : List (String × String))
    (instEnv : List (String × EnvVal)) (pkgs : List (String × String)) :
    List (String × String) :=
  instEnv.foldl
    (fun acc p =>
      let resolvedVal := match p.2 with
        | .lit s => some s
        | .computed f => f pkgs
      match resolvedVal with
      | none => acc
      | some s => dictInsert acc p.1 s)
    (if passEnv then host else [])

/-- Rendering of one env value in the summary (riot.py lines 247, 313-314).
The source formats a deferred callable through repr, which has no
meaningful embedding; literals are shown as themselves. -/
def envValStr : EnvVal → String
  | .lit s => s
  | .computed _ => "<function>"

/-- Embedding of get_env_str (riot.py lines 313-314). -/
def getEnvStr (envs : List (String × EnvVal)) : String :=
  String.intercalate " " (envs.map (fun p => p.1 ++ "=" ++ envValStr p.2))

/-- Python string formatting of an optional string: None prints as the
word None. -/
def fmtOptStr : Option String → String
  | none => "None"
  | some s => s

/-- One line of the final summary block (riot.py lines 244-249). -/
def summaryLine (r : VenvInstanceResult) : String :=
  (if r.code != 0 then "✖️" else "✔️") ++ "  " ++ fmtOptStr r.inst.name ++ ": " ++
    getEnvStr r.inst.env ++ " python" ++ r.inst.py ++ " " ++ r.pkgstr

/-- Embedding of Session (riot.py lines 111-113). -/
structure Session : Type where
  venv : Venv

/-- Observable outcome of Session.run: the collected results, the
printed summary block (none when a fatal abort happened before it), and
the process exit status. -/
structure RunOutput : Type where
  results : List VenvInstanceResult
  summary : Option (List String)
  exitCode : Int

/-- Embedding of Session.run (riot.py lines 127-252).  baseFatal
abstracts generate_base_venvs aborting the whole process on a failed dev
install into a base venv (lines 290-296); its other provisioning
failures only log and skip.  The enumerated instances are filtered by
the pythons option (lines 147-149) and processed sequentially by
runLoop; unless the loop aborted fatally, the summary is printed and the
process exit status is 1 when some result has a nonzero code, else 0
(lines 243-252). -/
def Session.run (s : Session) (pat : String → Bool) (pythons : List String)
    (world : Nat → ExecOutcome) (baseFatal : Bool) : RunOutput :=
  if baseFatal then ⟨[], none, 1⟩
  else
    let insts := (s.venv.instances pat []).filter
      (fun i => pythons.isEmpty || pythons.contains i.py)
    let (results, e) := runLoop world 0 insts
    match e with
    | .fatalExit => ⟨results, none, 1⟩
    | _ =>
      ⟨results, some (results.map summaryLine),
        if results.any (fun r => r.code != 0) then 1 else 0⟩

/-! ### Heap-aware model of the attrs default-argument aliasing

The source declares the mapping fields with attr.ib(default={}) and
attr.ib(default=[]) (riot.py lines 31-34).  Those default objects are
created once, when the class body is evaluated, and every Venv built
without an explicit argument for such a field aliases the same object.
The fresh Venv() built at riot.py line 40 therefore has the class-level
default dicts as its env and pkgs, and the in-place updates
venv.env.update(parent.env) and venv.pkgs.update(parent.pkgs) at lines
48-49 mutate those shared objects.  The model below makes the contents
of the two shared default dicts explicit state; list fields are never
mutated in place by the source, so their aliasing is unobservable and
they are kept as plain values. -/

/-- The mutable contents of the two class-level default dicts shared by
every Venv built without an explicit env or pkgs argument. -/
structure VenvHeap : Type where
  denv : List (String × List EnvVal)
  dpkgs : List (String × List (Option String))

/-- A dict-valued field of a node: either its own dict object, passed
explicitly at construction, or an alias of the class-level shared
default dict. -/
inductive DictRef (α : Type) : Type where
  | own (d : List (String × α))
  | shared

/-- The current contents of a dict-valued field under a heap. -/
def DictRef.read (sharedContents : List (String × α)) : DictRef α → List (String × α)
  | .own d => d
  | .shared => sharedContents

/-- Heap-aware counterpart of a Venv node; children are irrelevant to
resolve and omitted. -/
structure VenvM : Type where
  name : Option String
  command : Option String
  pys : List String
  pkgs : DictRef (List (Option String))
  env : DictRef (List EnvVal)

/-- The observable env mapping of a node under a heap. -/
def VenvM.envContents (h : VenvHeap) (v : VenvM) : List (String × List EnvVal) :=
  v.env.read h.denv

/-- The observable pkgs mapping of a node under a heap. -/
def VenvM.pkgsContents (h : VenvHeap) (v : VenvM) : List (String × List (Option String)) :=
  v.pkgs.read h.dpkgs

/-- Heap-aware embedding of Venv.resolve (riot.py lines 36-50).  The
fresh Venv() of line 40 takes the shared default dicts as its env and
pkgs, so each loop iteration reads the parent mappings from the current
heap and writes the update into the shared default dicts themselves. -/
def VenvM.resolve (v : VenvM) (parents : List VenvM) (h : VenvHeap) :
    VenvM × VenvHeap :=
  if parents.isEmpty then (v, h)
  else
    (parents ++ [v]).foldl
      (fun acc p =>
        let r := acc.1
        let h := acc.2
        (⟨if strTruthy p.name then p.name else r.name,
          if strTruthy p.command then p.command else r.command,
          if p.pys.isEmpty then r.pys else p.pys,
          DictRef.shared, DictRef.shared⟩,
         ⟨dictUpdate h.denv (p.envContents h),
          dictUpdate h.dpkgs (p.pkgsContents h)⟩))
      (⟨none, none, [], DictRef.shared, DictRef.shared⟩, h)

/-- Specification-side reading of key-wise last-write-wins accumulation
over a chain of mappings: the last chain element defining the key
supplies its whole value. -/
def lastWrite (k : String) : List (List (String × α)) → Option α
  | [] => none
  | e :: rest => (lastWrite k rest).orElse (fun _ => dictLookup e k)

/-- Specification-side reading of the scalar override rule: the last
chain element satisfying the predicate wins. -/
def lastSat (p : α → Bool) : List α → Option α
  | [] => none
  | x :: rest => (lastSat p rest).orElse (fun _ => if p x then some x else none)

/-- The direct expansion of a runnable resolved node (riot.py lines
74-83): env combinations outermost, then interpreters in declared order,
then package combinations innermost. -/
def ownExpansion (r : Venv) : List VenvInstance :=
  (expandSpecs r.env).flatMap (fun e =>
    r.pys.flatMap (fun py =>
      (expandSpecs r.pkgs).map (fun pk =>
        VenvInstance.mk r.name py r.command e pk)))

/-- Specification-side description of the results collected when the
loop processes every instance: one result per instance, in order, each
carrying the code of its outcome. -/
def expectedResults (world : Nat → ExecOutcome) :
    Nat → List VenvInstance → List VenvInstanceResult
  | _, [] => []
  | k, i :: rest => mkResult i (outcomeCode (world k)) :: expectedResults world (k + 1) rest

/-! ### Concrete fixtures used by the witness theorems -/

def wVA : Venv := Venv.mk (some "A") none ["3.7"] [("p", [some "1"])] [] []

def wVB : Venv := Venv.mk (some "B") (some "cmdB") ["3.8"] [("q", [some "2"])] [] []

def wVC : Venv := Venv.mk (some "C") none [] [("p", [some "3"])] [] []

def wChild : Venv := Venv.mk none (some "cc") [] [] [] []

def wNonRun : Venv :=
  Venv.mk (some "n") none ["3.8"] [("p", [some "1"])] [("E", [EnvVal.lit "x"])] [wChild]

def wRun : Venv :=
  Venv.mk (some "m") (some "c") ["3.7", "3.8"] [("p", [some "1", none])]
    [("E", [EnvVal.lit "a", EnvVal.lit "b"])] []

def wMatchChild : Venv := Venv.mk (some "k") (some "kc") ["2"] [] [] []

def wRoot : Venv := Venv.mk (some "root") (some "c") ["3"] [] [] [wMatchChild]

def wPruned : Venv := Venv.mk (some "x") (some "c") ["3"] [] [] [wMatchChild]

def wSess : Session := Session.mk (Venv.mk none (some "echo") ["3.7", "3.8", "3.9"] [] [] [])

def wWorldFail : Nat → ExecOutcome :=
  fun j => if j = 1 then ExecOutcome.fail FailStage.cmdStep 2 else ExecOutcome.ok

def wWorldInt : Nat → ExecOutcome :=
  fun j => if j = 1 then ExecOutcome.interrupt else ExecOutcome.ok

def wInstMid : VenvInstance := VenvInstance.mk none "3.8" (some "echo") [] []

def wIA : VenvInstance :=
  VenvInstance.mk none "3.8" (some "c") [("E", EnvVal.lit "1")] [("a", some "1")]

def wIB : VenvInstance := VenvInstance.mk (some "other") "3.8" (some "c") [] [("a", some "1")]

def wIC : VenvInstance := VenvInstance.mk none "3.8" (some "c") [] [("a", some "1")]

def wID : VenvInstance := VenvInstance.mk none "3.8" (some "c") [] [("b", some "2")]

/-! ### Association-list (Python dict) lemmas -/

theorem dictLookup_nil (k : String) : dictLookup ([] : List (String × α)) k = none := rfl

theorem dictLookup_cons (p : String × α) (d : List (String × α)) (k : String) :
    dictLookup (p :: d) k = if p.1 == k then some p.2 else dictLookup d k := by
  cases h : p.1 == k <;> simp [dictLookup, List.find?_cons, h]

theorem str_beq_false {a b : String} (h : a ≠ b) : (a == b) = false := by
  simp [h]

theorem dictLookup_eq_none (d : List (String × α)) (k : String)
    (h : k ∉ d.map Prod.fst) : dictLookup d k = none := by
  induction d with
  | nil => rfl
  | cons p d ih =>
    rw [List.map_cons, List.mem_cons] at h
    push_neg at h
    rw [dictLookup_cons, str_beq_false (fun hh => h.1 hh.symm), ih h.2]
    rfl

theorem dictLookup_dictInsert (d : List (String × α)) (k : String) (v : α) (q : String) :
    dictLookup (dictInsert d k v) q = if q = k then some v else dictLookup d q := by
  induction d with
  | nil =>
    by_cases h : q = k
    · subst h; simp [dictInsert, dictLookup_cons]
    · simp [dictInsert, dictLookup_cons, dictLookup_nil, h,
        str_beq_false (fun hh => h hh.symm)]
  | cons p d ih =>
    by_cases hpk : p.1 = k
    · have hins : dictInsert (p :: d) k v = (k, v) :: d := by
        simp [dictInsert, hpk]
      rw [hins, dictLookup_cons, dictLookup_cons]
      by_cases hq : q = k
      · subst hq; simp
      · have hkq : (k == q) = false := str_beq_false (fun hh => hq hh.symm)
        have hpq : (p.1 == q) = false := by rw [hpk]; exact hkq
        simp [hkq, hpq, hq]
    · have hins : dictInsert (p :: d) k v = p :: dictInsert d k v := by
        simp [dictInsert, hpk]
      rw [hins, dictLookup_cons, ih, dictLookup_cons]
      by_cases hq : q = k
      · subst hq; simp [str_beq_false hpk]
      · simp [hq]

theorem dictUpdate_nil (d : List (String × α)) : dictUpdate d [] = d := rfl

theorem dictUpdate_cons (d : List (String × α)) (p : String × α) (e : List (String × α)) :
    dictUpdate d (p :: e) = dictUpdate (dictInsert d p.1 p.2) e := rfl

theorem orElse_none_right (o : Option α) : (o.orElse (fun _ => none)) = o := by
  cases o <;> rfl

theorem orElse_assoc (a b c : Option α) :
    ((a.orElse (fun _ => b)).orElse (fun _ => c)) =
      (a.orElse (fun _ => b.orElse (fun _ => c))) := by
  cases a <;> rfl

theorem dictLookup_dictUpdate (d e : List (String × α)) (k : String)
    (he : (e.map Prod.fst).Nodup) :
    dictLookup (dictUpdate d e) k =
      ((dictLookup e k).orElse (fun _ => dictLookup d k)) := by
  induction e generalizing d with
  | nil => rfl
  | cons p e ih =>
    rw [List.map_cons, List.nodup_cons] at he
    rw [dictUpdate_cons, ih _ he.2, dictLookup_cons]
    by_cases hq : k = p.1
    · rw [hq]
      have h0 : dictLookup e p.1 = none := dictLookup_eq_none e p.1 he.1
      rw [h0, dictLookup_dictInsert, if_pos rfl]
      simp [Option.orElse]
    · rw [dictLookup_dictInsert, if_neg hq,
        str_beq_false (fun hh => hq hh.symm)]
      rfl

theorem lastWrite_concat (k : String) (es : List (List (String × α))) (e : List (String × α)) :
    lastWrite k (es ++ [e]) =
      ((dictLookup e k).orElse (fun _ => lastWrite k es)) := by
  induction es with
  | nil =>
    show ((lastWrite k []).orElse fun _ => dictLookup e k) = _
    cases h : dictLookup e k <;> simp [lastWrite, Option.orElse, h]
  | cons x es ih =>
    show ((lastWrite k (es ++ [e])).orElse fun _ => dictLookup x k) = _
    rw [ih, orElse_assoc]
    rfl

theorem dictLookup_foldl_dictUpdate (cs : List (List (String × α))) (init : List (String × α))
    (k : String) (h : ∀ e ∈ cs, (e.map Prod.fst).Nodup) :
    dictLookup (cs.foldl dictUpdate init) k =
      ((lastWrite k cs).orElse (fun _ => dictLookup init k)) := by
  induction cs generalizing init with
  | nil => rfl
  | cons e cs ih =>
    rw [List.foldl_cons,
      ih (dictUpdate init e) (fun x hx => h x (List.mem_cons_of_mem _ hx)),
      dictLookup_dictUpdate _ _ _ (h e (List.mem_cons_self _ _))]
    show _ = ((lastWrite k cs).orElse fun _ => dictLookup e k).orElse _
    rw [orElse_assoc]

theorem lastSat_concat (p : α → Bool) (l : List α) (x : α) :
    lastSat p (l ++ [x]) =
      ((if p x then some x else none).orElse (fun _ => lastSat p l)) := by
  induction l with
  | nil =>
    show ((lastSat p []).orElse fun _ => if p x then some x else none) = _
    cases h : p x <;> simp [lastSat, Option.orElse, h]
  | cons y l ih =>
    show ((lastSat p (l ++ [x])).orElse fun _ => if p y then some y else none) = _
    rw [ih, orElse_assoc]
    rfl

theorem foldl_choice_eq_lastSat (p : α → Bool) (l : List α) (a0 : α) :
    l.foldl (fun a x => if p x then x else a) a0 = (lastSat p l).getD a0 := by
  induction l generalizing a0 with
  | nil => rfl
  | cons x l ih =>
    rw [List.foldl_cons, ih]
    show _ = ((lastSat p l).orElse fun _ => if p x then some x else none).getD a0
    cases hls : lastSat p l <;> cases hp : p x <;> simp [Option.orElse, hp]

/-! ### Field-wise characterization of the resolve fold -/

theorem foldl_resolveStep_name (cs : List Venv) (init : Venv) :
    (cs.foldl resolveStep init).name =
      (cs.map Venv.name).foldl (fun a n => if strTruthy n then n else a) init.name := by
  induction cs generalizing init with
  | nil => rfl
  | cons p cs ih => rw [List.foldl_cons, ih, List.map_cons, List.foldl_cons]; rfl

theorem foldl_resolveStep_command (cs : List Venv) (init : Venv) :
    (cs.foldl resolveStep init).command =
      (cs.map Venv.command).foldl (fun a n => if strTruthy n then n else a) init.command := by
  induction cs generalizing init with
  | nil => rfl
  | cons p cs ih => rw [List.foldl_cons, ih, List.map_cons, List.foldl_cons]; rfl

theorem foldl_resolveStep_pys (cs : List Venv) (init : Venv) :
    (cs.foldl resolveStep init).pys =
      (cs.map Venv.pys).foldl (fun a l => if (fun x : List String => !x.isEmpty) l then l else a)
        init.pys := by
  induction cs generalizing init with
  | nil => rfl
  | cons p cs ih =>
    rw [List.foldl_cons, ih, List.map_cons, List.foldl_cons]
    have : (resolveStep init p).pys = if !p.pys.isEmpty then p.pys else init.pys := by
      show (if p.pys.isEmpty then init.pys else p.pys) = _
      cases h : p.pys.isEmpty <;> simp [h]
    rw [this]

theorem foldl_resolveStep_env (cs : List Venv) (init : Venv) :
    (cs.foldl resolveStep init).env =
      (cs.map Venv.env).foldl dictUpdate init.env := by
  induction cs generalizing init with
  | nil => rfl
  | cons p cs ih => rw [List.foldl_cons, ih, List.map_cons, List.foldl_cons]; rfl

theorem foldl_resolveStep_pkgs (cs : List Venv) (init : Venv) :
    (cs.foldl resolveStep init).pkgs =
      (cs.map Venv.pkgs).foldl dictUpdate init.pkgs := by
  induction cs generalizing init with
  | nil => rfl
  | cons p cs ih => rw [List.foldl_cons, ih, List.map_cons, List.foldl_cons]; rfl

theorem resolve_eq_foldl (v : Venv) (parents : List Venv) (h : parents ≠ []) :
    v.resolve parents =
      (parents ++ [v]).foldl resolveStep (Venv.mk none none [] [] [] []) := by
  rw [Venv.resolve, if_neg]
  simp [List.isEmpty_iff, h]

theorem resolve_name_eq (v : Venv) (parents : List Venv) (h : parents ≠ []) :
    (v.resolve parents).name =
      (lastSat strTruthy ((parents ++ [v]).map Venv.name)).getD none := by
  rw [resolve_eq_foldl v parents h, foldl_resolveStep_name, foldl_choice_eq_lastSat]
  rfl

theorem resolve_command_eq (v : Venv) (parents : List Venv) (h : parents ≠ []) :
    (v.resolve parents).command =
      (lastSat strTruthy ((parents ++ [v]).map Venv.command)).getD none := by
  rw [resolve_eq_foldl v parents h, foldl_resolveStep_command, foldl_choice_eq_lastSat]
  rfl

theorem resolve_pys_eq (v : Venv) (parents : List Venv) (h : parents ≠ []) :
    (v.resolve parents).pys =
      (lastSat (fun l : List String => !l.isEmpty) ((parents ++ [v]).map Venv.pys)).getD [] := by
  rw [resolve_eq_foldl v parents h, foldl_resolveStep_pys, foldl_choice_eq_lastSat]
  rfl

theorem resolve_env_lookup (v : Venv) (parents : List Venv) (k : String) (h : parents ≠ [])
    (hnd : ∀ p ∈ parents ++ [v], (p.env.map Prod.fst).Nodup) :
    dictLookup (v.resolve parents).env k =
      lastWrite k ((parents ++ [v]).map Venv.env) := by
  rw [resolve_eq_foldl v parents h, foldl_resolveStep_env]
  rw [dictLookup_foldl_dictUpdate]
  · show ((lastWrite k _).orElse fun _ => dictLookup [] k) = _
    rw [dictLookup_nil, orElse_none_right]
  · intro e he
    rw [List.mem_map] at he
    obtain ⟨p, hp, rfl⟩ := he
    exact hnd p hp

theorem resolve_pkgs_lookup (v : Venv) (parents : List Venv) (k : String) (h : parents ≠ [])
    (hnd : ∀ p ∈ parents ++ [v], (p.pkgs.map Prod.fst).Nodup) :
    dictLookup (v.resolve parents).pkgs k =
      lastWrite k ((parents ++ [v]).map Venv.pkgs) := by
  rw [resolve_eq_foldl v parents h, foldl_resolveStep_pkgs]
  rw [dictLookup_foldl_dictUpdate]
  · show ((lastWrite k _).orElse fun _ => dictLookup [] k) = _
    rw [dictLookup_nil, orElse_none_right]
  · intro e he
    rw [List.mem_map] at he
    obtain ⟨p, hp, rfl⟩ := he
    exact hnd p hp

/-! ### Spec expander lemmas -/

theorem length_flatMap_const (l : List α) (f : α → List β) (c : Nat)
    (h : ∀ x ∈ l, (f x).length = c) :
    (l.flatMap f).length = l.length * c := by
  induction l with
  | nil => simp
  | cons a t ih =>
    have ha := h a (List.mem_cons_self a t)
    have ht : ∀ x ∈ t, (f x).length = c := fun x hx => h x (List.mem_cons_of_mem a hx)
    simp [ha, ih ht, Nat.succ_mul, Nat.add_comm]

theorem length_listProduct (ls : List (List α)) :
    (listProduct ls).length = (ls.map List.length).prod := by
  induction ls with
  | nil => simp [listProduct]
  | cons pool rest ih =>
    rw [listProduct,
      length_flatMap_const pool _ (listProduct rest).length (fun x hx => by simp)]
    simp [ih]

theorem expandSpecs_nil : expandSpecs ([] : List (String × List α)) = [[]] := rfl

theorem expandSpecs_cons (p : String × List α) (specs : List (String × List α)) :
    expandSpecs (p :: specs) =
      (p.2.map (fun v => (p.1, v))).flatMap
        (fun x => (expandSpecs specs).map (fun t => x :: t)) := rfl

theorem mem_expandSpecs_fst (specs : List (String × List α)) :
    ∀ combo ∈ expandSpecs specs, combo.map Prod.fst = specs.map Prod.fst := by
  induction specs with
  | nil =>
    intro combo h
    rw [expandSpecs_nil, List.mem_singleton] at h
    subst h
    rfl
  | cons p specs ih =>
    intro combo h
    rw [expandSpecs_cons, List.mem_flatMap] at h
    obtain ⟨x, hx, hcombo⟩ := h
    rw [List.mem_map] at hcombo
    obtain ⟨t, ht, rfl⟩ := hcombo
    rw [List.mem_map] at hx
    obtain ⟨v, hv, rfl⟩ := hx
    simp [ih t ht]

/-- C7: for every axis mapping, the spec expander produces exactly the
product of the candidate-list lengths many combinations, each combination
listing one (axis, value) pair per axis in the insertion order of the
mapping; the empty mapping produces exactly the one empty combination. -/
theorem c7_expandSpecs_product (specs : List (String × List α)) :
    (expandSpecs specs).length = (specs.map (fun p => p.2.length)).prod ∧
    (∀ combo ∈ expandSpecs specs, combo.map Prod.fst = specs.map Prod.fst) ∧
    expandSpecs ([] : List (String × List α)) = [[]] := by
  refine ⟨?_, mem_expandSpecs_fst specs, rfl⟩
  rw [expandSpecs, length_listProduct]
  congr 1
  simp [List.map_map]

theorem c7_expandSpecs_product_witness :
    (expandSpecs [("a", [1, 2]), ("b", [3])]).length = 2 ∧
    [("a", 1), ("b", 3)].map Prod.fst = [("a", [1, 2]), ("b", [3])].map Prod.fst := by
  have h := c7_expandSpecs_product [("a", [1, 2]), ("b", [3])]
  exact ⟨by rw [h.1]; rfl, h.2.1 [("a", 1), ("b", 3)] (by decide)⟩

/-- C2: resolving a node against a nonempty ancestor chain, iterated
from the outermost ancestor to the node itself, gives the last truthy
value of each scalar field over the chain and key-wise last-write-wins
accumulation of the env and pkgs mappings, a later chain entry wholesale
replacing the candidate list of an earlier entry for the same key; an
empty chain returns the node itself unchanged.  The mappings of every
chain element are assumed to have unique keys, as Python dicts do. -/
theorem c2_resolve_lastWrite (v : Venv) (parents : List Venv)
    (hnd : ∀ p ∈ parents ++ [v],
      (p.env.map Prod.fst).Nodup ∧ (p.pkgs.map Prod.fst).Nodup) :
    (parents = [] → v.resolve [] = v) ∧
    (parents ≠ [] →
      ((v.resolve parents).name =
          (lastSat strTruthy ((parents ++ [v]).map Venv.name)).getD none ∧
        (v.resolve parents).command =
          (lastSat strTruthy ((parents ++ [v]).map Venv.command)).getD none ∧
        (v.resolve parents).pys =
          (lastSat (fun l : List String => !l.isEmpty)
            ((parents ++ [v]).map Venv.pys)).getD [] ∧
        (∀ k, dictLookup (v.resolve parents).env k =
          lastWrite k ((parents ++ [v]).map Venv.env)) ∧
        (∀ k, dictLookup (v.resolve parents).pkgs k =
          lastWrite k ((parents ++ [v]).map Venv.pkgs)))) := by
  constructor
  · intro h
    rfl
  · intro h
    refine ⟨resolve_name_eq v parents h, resolve_command_eq v parents h,
      resolve_pys_eq v parents h, ?_, ?_⟩
    · intro k
      exact resolve_env_lookup v parents k h (fun p hp => (hnd p hp).1)
    · intro k
      exact resolve_pkgs_lookup v parents k h (fun p hp => (hnd p hp).2)

/-! ### Instance-enumeration lemmas -/

theorem instances_mk (n c : Option String) (pys : List String)
    (pkgs : List (String × List (Option String))) (env : List (String × List EnvVal))
    (venvs : List Venv) (pat : String → Bool) (parents : List Venv) :
    (Venv.mk n c pys pkgs env venvs).instances pat parents =
      childrenInstances venvs pat (parents ++ [Venv.mk n c pys pkgs env venvs]) ++
        (if !(strTruthy ((Venv.mk n c pys pkgs env venvs).resolve parents).command) ||
            ((Venv.mk n c pys pkgs env venvs).resolve parents).pys.isEmpty then []
         else ownExpansion ((Venv.mk n c pys pkgs env venvs).resolve parents)) := by
  rw [Venv.instances]
  rfl

theorem childrenInstances_nil (pat : String → Bool) (parents : List Venv) :
    childrenInstances [] pat parents = [] := by
  rw [childrenInstances]

theorem childrenInstances_cons (ch : Venv) (rest : List Venv) (pat : String → Bool)
    (parents : List Venv) :
    childrenInstances (ch :: rest) pat parents =
      (if childSkipped ch pat then [] else ch.instances pat parents) ++
        childrenInstances rest pat parents := by
  rw [childrenInstances]

theorem childrenInstances_eq_flatten (vs : List Venv) (pat : String → Bool)
    (parents : List Venv) :
    childrenInstances vs pat parents =
      (vs.map (fun c =>
        if childSkipped c pat then [] else c.instances pat parents)).flatten := by
  induction vs with
  | nil => rw [childrenInstances_nil]; rfl
  | cons ch rest ih => rw [childrenInstances_cons, ih]; rfl

theorem instances_runnable (v : Venv) (pat : String → Bool) (parents : List Venv)
    (hc : strTruthy (v.resolve parents).command = true)
    (hp : (v.resolve parents).pys ≠ []) :
    v.instances pat parents =
      childrenInstances v.venvs pat (parents ++ [v]) ++ ownExpansion (v.resolve parents) := by
  cases v with
  | mk n c pys pkgs env venvs =>
    rw [instances_mk]
    have hguard :
        (!(strTruthy ((Venv.mk n c pys pkgs env venvs).resolve parents).command) ||
          ((Venv.mk n c pys pkgs env venvs).resolve parents).pys.isEmpty) = false := by
      rw [hc]
      simp [List.isEmpty_iff, hp]
    rw [hguard]
    rfl

theorem instances_not_runnable (v : Venv) (pat : String → Bool) (parents : List Venv)
    (h : strTruthy (v.resolve parents).command = false ∨ (v.resolve parents).pys = []) :
    v.instances pat parents = childrenInstances v.venvs pat (parents ++ [v]) := by
  cases v with
  | mk n c pys pkgs env venvs =>
    rw [instances_mk]
    have hguard :
        (!(strTruthy ((Venv.mk n c pys pkgs env venvs).resolve parents).command) ||
          ((Venv.mk n c pys pkgs env venvs).resolve parents).pys.isEmpty) = true := by
      cases h with
      | inl hcmd => rw [hcmd]; rfl
      | inr hpys => rw [hpys]; simp
    rw [hguard]
    simp
    rfl

theorem none_orElse (f : Unit → Option α) : (Option.orElse none f) = f () := rfl

theorem foldl_resolveStep_chain_pys (v : Venv) (parents : List Venv) :
    ((parents ++ [v]).foldl resolveStep (Venv.mk none none [] [] [] [])).pys =
      (v.resolve parents).pys := by
  by_cases hp : parents = []
  · subst hp
    show (if v.pys.isEmpty then ([] : List String) else v.pys) = v.pys
    by_cases hh : v.pys = []
    · rw [hh]
      rfl
    · rw [if_neg (by simp [List.isEmpty_iff, hh])]
  · rw [resolve_eq_foldl v parents hp]

theorem resolve_snoc_pys (c v : Venv) (parents : List Venv) (hc : c.pys = []) :
    (c.resolve (parents ++ [v])).pys = (v.resolve parents).pys := by
  rw [resolve_eq_foldl c (parents ++ [v]) (by simp), List.foldl_append]
  show (if c.pys.isEmpty then _ else c.pys) = _
  rw [hc]
  show ((parents ++ [v]).foldl resolveStep (Venv.mk none none [] [] [] [])).pys = _
  exact foldl_resolveStep_chain_pys v parents

theorem resolve_snoc_env_lookup (c v : Venv) (parents : List Venv) (k : String)
    (hce : c.env = [])
    (hnd : ∀ p ∈ parents ++ [v], (p.env.map Prod.fst).Nodup) :
    dictLookup (c.resolve (parents ++ [v])).env k =
      dictLookup (v.resolve parents).env k := by
  have hnd' : ∀ p ∈ (parents ++ [v]) ++ [c], (p.env.map Prod.fst).Nodup := by
    intro p hp
    rw [List.mem_append] at hp
    cases hp with
    | inl h => exact hnd p h
    | inr h =>
      rw [List.mem_singleton] at h
      subst h
      rw [hce]
      exact List.nodup_nil
  rw [resolve_env_lookup c (parents ++ [v]) k (by simp) hnd',
    List.map_append, List.map_singleton, hce, lastWrite_concat, dictLookup_nil,
    none_orElse]
  by_cases hp : parents = []
  · subst hp
    show ((lastWrite k []).orElse fun _ => dictLookup v.env k) = _
    rw [lastWrite, none_orElse]
    rfl
  · rw [resolve_env_lookup v parents k hp hnd]

theorem resolve_snoc_pkgs_lookup (c v : Venv) (parents : List Venv) (k : String)
    (hcp : c.pkgs = [])
    (hnd : ∀ p ∈ parents ++ [v], (p.pkgs.map Prod.fst).Nodup) :
    dictLookup (c.resolve (parents ++ [v])).pkgs k =
      dictLookup (v.resolve parents).pkgs k := by
  have hnd' : ∀ p ∈ (parents ++ [v]) ++ [c], (p.pkgs.map Prod.fst).Nodup := by
    intro p hp
    rw [List.mem_append] at hp
    cases hp with
    | inl h => exact hnd p h
    | inr h =>
      rw [List.mem_singleton] at h
      subst h
      rw [hcp]
      exact List.nodup_nil
  rw [resolve_pkgs_lookup c (parents ++ [v]) k (by simp) hnd',
    List.map_append, List.map_singleton, hcp, lastWrite_concat, dictLookup_nil,
    none_orElse]
  by_cases hp : parents = []
  · subst hp
    show ((lastWrite k []).orElse fun _ => dictLookup v.pkgs k) = _
    rw [lastWrite, none_orElse]
    rfl
  · rw [resolve_pkgs_lookup v parents k hp hnd]

/-- C4 counterexample: the enumeration never tests the name of the node
it starts from against the pattern — only children are filtered — so a
root node whose set name fails the pattern still yields its own
instance, refuting the claim for that node of the tree. -/
theorem c4_counterexample :
    ((fun s => s == "y") "x") = false ∧
    (Venv.mk (some "x") (some "cmd") ["3.8"] [] [] []).name = some "x" ∧
    ((Venv.mk (some "x") (some "cmd") ["3.8"] [] [] []).instances
      (fun s => s == "y") []).length = 1 := by
  exact ⟨rfl, rfl, rfl⟩

/-- C4 (amended): for every node occurring as a child in the tree walk,
a set, nonempty name that fails the pattern prunes that node and its
entire subtree from the enumeration — the child loop contributes exactly
what it would contribute without that child — even if descendant names
would match; the node the enumeration is started on is itself never
name-filtered. -/
theorem c4_child_pruning (ch : Venv) (pat : String → Bool) (n : String)
    (hname : ch.name = some n) (hne : n ≠ "") (hmiss : pat n = false)
    (l1 l2 parents : List Venv) :
    childrenInstances (l1 ++ ch :: l2) pat parents =
      childrenInstances (l1 ++ l2) pat parents := by
  have hskip : childSkipped ch pat = true := by
    simp [childSkipped, hname, hmiss, str_beq_false hne]
  induction l1 with
  | nil => simp [childrenInstances_cons, hskip]
  | cons a t ih => simp [childrenInstances_cons, ih]

/-- C5: a node whose resolved form has a falsy command or an empty
interpreter list yields no instances of its own — its enumeration is
exactly the concatenation of the child enumerations — while whatever
interpreters, env and pkgs it resolves to still reach each child through
the extended ancestor chain (shown for a child that leaves the
corresponding field unset).  Mapping keys are assumed unique per node,
as Python dicts guarantee. -/
theorem c5_not_runnable_passthrough (v : Venv) (pat : String → Bool) (parents : List Venv)
    (hnr : strTruthy (v.resolve parents).command = false ∨ (v.resolve parents).pys = [])
    (hnd : ∀ p ∈ parents ++ [v],
      (p.env.map Prod.fst).Nodup ∧ (p.pkgs.map Prod.fst).Nodup) :
    v.instances pat parents = childrenInstances v.venvs pat (parents ++ [v]) ∧
    (∀ c : Venv, c.pys = [] →
      (c.resolve (parents ++ [v])).pys = (v.resolve parents).pys) ∧
    (∀ c : Venv, c.env = [] → ∀ k,
      dictLookup (c.resolve (parents ++ [v])).env k =
        dictLookup (v.resolve parents).env k) ∧
    (∀ c : Venv, c.pkgs = [] → ∀ k,
      dictLookup (c.resolve (parents ++ [v])).pkgs k =
        dictLookup (v.resolve parents).pkgs k) := by
  refine ⟨instances_not_runnable v pat parents hnr, ?_, ?_, ?_⟩
  · intro c hc
    exact resolve_snoc_pys c v parents hc
  · intro c hc k
    exact resolve_snoc_env_lookup c v parents k hc (fun p hp => (hnd p hp).1)
  · intro c hc k
    exact resolve_snoc_pkgs_lookup c v parents k hc (fun p hp => (hnd p hp).2)

/-- C6: a runnable resolved node appends to the instances of its children
exactly one own instance per (env-combination, interpreter,
package-combination) triple, ordered env-combinations outermost, then
interpreters in declared order, then package-combinations innermost; the
count is the product of the three axis sizes. -/
theorem c6_runnable_expansion (v : Venv) (pat : String → Bool) (parents : List Venv)
    (hc : strTruthy (v.resolve parents).command = true)
    (hp : (v.resolve parents).pys ≠ []) :
    v.instances pat parents =
      childrenInstances v.venvs pat (parents ++ [v]) ++ ownExpansion (v.resolve parents) ∧
    (ownExpansion (v.resolve parents)).length =
      (expandSpecs (v.resolve parents).env).length *
        ((v.resolve parents).pys.length * (expandSpecs (v.resolve parents).pkgs).length) ∧
    (∀ inst, inst ∈ ownExpansion (v.resolve parents) ↔
      ∃ e ∈ expandSpecs (v.resolve parents).env, ∃ py ∈ (v.resolve parents).pys,
        ∃ pk ∈ expandSpecs (v.resolve parents).pkgs,
          inst = VenvInstance.mk (v.resolve parents).name py
            (v.resolve parents).command e pk) := by
  refine ⟨instances_runnable v pat parents hc hp, ?_, ?_⟩
  · rw [ownExpansion,
      length_flatMap_const _ _
        ((v.resolve parents).pys.length * (expandSpecs (v.resolve parents).pkgs).length)
        (fun e he => ?_)]
    rw [length_flatMap_const _ _ (expandSpecs (v.resolve parents).pkgs).length
      (fun py hpy => by simp)]
  · intro inst
    simp [ownExpansion, eq_comm]

/-- C10: a node with pattern-matching children and a runnable resolved
configuration of its own yields all the instances its children produce,
in child-list order, before any of its own directly expanded
instances. -/
theorem c10_children_before_own (v : Venv) (pat : String → Bool) (parents : List Venv)
    (hc : strTruthy (v.resolve parents).command = true)
    (hp : (v.resolve parents).pys ≠ [])
    (hch : ∃ c ∈ v.venvs, childSkipped c pat = false) :
    v.instances pat parents =
      childrenInstances v.venvs pat (parents ++ [v]) ++ ownExpansion (v.resolve parents) ∧
    childrenInstances v.venvs pat (parents ++ [v]) =
      (v.venvs.map (fun c =>
        if childSkipped c pat then [] else c.instances pat (parents ++ [v]))).flatten :=
  ⟨instances_runnable v pat parents hc hp,
    childrenInstances_eq_flatten v.venvs pat (parents ++ [v])⟩

/-! ### Session.run lemmas -/

theorem expectedResults_length (world : Nat → ExecOutcome) (insts : List VenvInstance) :
    ∀ k, (expectedResults world k insts).length = insts.length := by
  induction insts with
  | nil => intro k; rfl
  | cons i rest ih => intro k; simp [expectedResults, ih]

theorem expectedResults_getElem (world : Nat → ExecOutcome) (insts : List VenvInstance) :
    ∀ k j, (expectedResults world k insts)[j]? =
      (insts[j]?).map (fun i => mkResult i (outcomeCode (world (k + j)))) := by
  induction insts with
  | nil => intro k j; rfl
  | cons i rest ih =>
    intro k j
    rw [show expectedResults world k (i :: rest) =
      mkResult i (outcomeCode (world k)) :: expectedResults world (k + 1) rest from rfl]
    cases j with
    | zero => simp
    | succ j =>
      rw [List.getElem?_cons_succ, List.getElem?_cons_succ, ih (k + 1) j,
        show (k + 1) + j = k + (j + 1) from by omega]

theorem runLoop_no_break (world : Nat → ExecOutcome) (insts : List VenvInstance)
    (h : ∀ j, world j ≠ ExecOutcome.interrupt ∧ world j ≠ ExecOutcome.fatal) :
    ∀ k, runLoop world k insts = (expectedResults world k insts, RunEnd.normal) := by
  induction insts with
  | nil => intro k; rfl
  | cons i rest ih =>
    intro k
    cases hw : world k with
    | ok => simp [runLoop, hw, ih, expectedResults, outcomeCode]
    | fail st cd => simp [runLoop, hw, ih, expectedResults, outcomeCode]
    | interrupt => exact absurd hw (h k).1
    | fatal => exact absurd hw (h k).2

theorem runLoop_interrupt (world : Nat → ExecOutcome) :
    ∀ (insts : List VenvInstance) (k0 kk : Nat) (i : VenvInstance),
      insts[kk]? = some i →
      world (k0 + kk) = ExecOutcome.interrupt →
      (∀ j, j < kk → world (k0 + j) ≠ ExecOutcome.interrupt ∧
        world (k0 + j) ≠ ExecOutcome.fatal) →
      runLoop world k0 insts =
        (expectedResults world k0 (insts.take kk) ++ [mkResult i 1], RunEnd.interrupted) := by
  intro insts
  induction insts with
  | nil =>
    intro k0 kk i hi hw hb
    simp at hi
  | cons a rest ih =>
    intro k0 kk i hi hw hb
    cases kk with
    | zero =>
      rw [List.getElem?_cons_zero] at hi
      injection hi with hi
      subst hi
      rw [Nat.add_zero] at hw
      simp [runLoop, hw, List.take_zero, expectedResults]
    | succ kk =>
      rw [List.getElem?_cons_succ] at hi
      have h0 := hb 0 (Nat.succ_pos kk)
      rw [Nat.add_zero] at h0
      have hw' : world ((k0 + 1) + kk) = ExecOutcome.interrupt := by
        rw [show (k0 + 1) + kk = k0 + (kk + 1) from by omega]
        exact hw
      have hb' : ∀ j, j < kk → world ((k0 + 1) + j) ≠ ExecOutcome.interrupt ∧
          world ((k0 + 1) + j) ≠ ExecOutcome.fatal := by
        intro j hj
        rw [show (k0 + 1) + j = k0 + (j + 1) from by omega]
        exact hb (j + 1) (by omega)
      have hrest := ih (k0 + 1) kk i hi hw' hb'
      cases hwk : world k0 with
      | ok =>
        simp [runLoop, hwk, hrest, List.take_succ_cons, expectedResults, outcomeCode]
      | fail st cd =>
        simp [runLoop, hwk, hrest, List.take_succ_cons, expectedResults, outcomeCode]
      | interrupt => exact absurd hwk h0.1
      | fatal => exact absurd hwk h0.2

/-- C1: when no interruption and no unexpected error occur, Session.run
records exactly one result per enumerated (and python-filtered)
instance, in order, a contained failure (failed base-venv copy, failed
dependency install, or command exiting nonzero) giving that result its
nonzero code while the loop continues; the whole-process exit status is
zero iff every collected result has status zero. -/
theorem c1_run_failure_containment (s : Session) (pat : String → Bool)
    (pythons : List String) (world : Nat → ExecOutcome)
    (hni : ∀ j, world j ≠ ExecOutcome.interrupt)
    (hnf : ∀ j, world j ≠ ExecOutcome.fatal)
    (hwf : ∀ j st cd, world j = ExecOutcome.fail st cd → cd ≠ 0) :
    (s.run pat pythons world false).results =
      expectedResults world 0 ((s.venv.instances pat []).filter
        (fun i => pythons.isEmpty || pythons.contains i.py)) ∧
    (s.run pat pythons world false).results.length =
      ((s.venv.instances pat []).filter
        (fun i => pythons.isEmpty || pythons.contains i.py)).length ∧
    (∀ j r, (s.run pat pythons world false).results[j]? = some r →
      ((world j = ExecOutcome.ok → r.code = 0) ∧
        (world j ≠ ExecOutcome.ok → r.code ≠ 0))) ∧
    ((s.run pat pythons world false).exitCode = 0 ↔
      ∀ r ∈ (s.run pat pythons world false).results, r.code = 0) := by
  have hloop := runLoop_no_break world
    ((s.venv.instances pat []).filter (fun i => pythons.isEmpty || pythons.contains i.py))
    (fun j => ⟨hni j, hnf j⟩) 0
  have hrun : (s.run pat pythons world false) =
      ⟨expectedResults world 0 ((s.venv.instances pat []).filter
          (fun i => pythons.isEmpty || pythons.contains i.py)),
        some ((expectedResults world 0 ((s.venv.instances pat []).filter
          (fun i => pythons.isEmpty || pythons.contains i.py))).map summaryLine),
        if (expectedResults world 0 ((s.venv.instances pat []).filter
            (fun i => pythons.isEmpty || pythons.contains i.py))).any
            (fun r => r.code != 0) then 1 else 0⟩ := by
    simp only [Session.run]
    rw [hloop]
    rfl
  refine ⟨by rw [hrun], by rw [hrun]; exact expectedResults_length _ _ 0, ?_, ?_⟩
  · intro j r hjr
    rw [hrun] at hjr
    rw [show (RunOutput.mk (expectedResults world 0 ((s.venv.instances pat []).filter
        (fun i => pythons.isEmpty || pythons.contains i.py)))
        (some ((expectedResults world 0 ((s.venv.instances pat []).filter
          (fun i => pythons.isEmpty || pythons.contains i.py))).map summaryLine))
        (if (expectedResults world 0 ((s.venv.instances pat []).filter
            (fun i => pythons.isEmpty || pythons.contains i.py))).any
            (fun r => r.code != 0) then 1 else 0)).results =
      expectedResults world 0 ((s.venv.instances pat []).filter
        (fun i => pythons.isEmpty || pythons.contains i.py)) from rfl] at hjr
    rw [expectedResults_getElem _ _ 0 j, Nat.zero_add] at hjr
    cases hins : ((s.venv.instances pat []).filter
        (fun i => pythons.isEmpty || pythons.contains i.py))[j]? with
    | none => rw [hins] at hjr; simp at hjr
    | some i0 =>
      rw [hins] at hjr
      injection hjr with hjr
      subst hjr
      constructor
      · intro hok
        show outcomeCode (world j) = 0
        rw [hok]
        rfl
      · intro hnok
        show outcomeCode (world j) ≠ 0
        cases hwj : world j with
        | ok => exact absurd hwj hnok
        | fail st cd => exact hwf j st cd hwj
        | interrupt => exact absurd hwj (hni j)
        | fatal => exact absurd hwj (hnf j)
  · rw [hrun]
    simp only
    by_cases hany : (expectedResults world 0 ((s.venv.instances pat []).filter
        (fun i => pythons.isEmpty || pythons.contains i.py))).any (fun r => r.code != 0)
    · rw [if_pos hany]
      rw [List.any_eq_true] at hany
      obtain ⟨r0, hr0, hcode⟩ := hany
      rw [bne_iff_ne] at hcode
      constructor
      · intro h1
        exact absurd h1 (by norm_num)
      · intro hall
        exact absurd (hall r0 hr0) hcode
    · rw [if_neg hany]
      rw [List.any_eq_true] at hany
      push_neg at hany
      constructor
      · intro _ r hr
        have h2 := hany r hr
        simp only [bne_iff_ne, ne_eq, not_not] at h2
        exact h2
      · intro _
        rfl

/-- C9: when the world delivers a user interruption while the kk-th
processed instance is executing (and no earlier instance was interrupted
or hit an unexpected error), Session.run finalizes that result with
code 1, stops without processing further instances — exactly kk + 1
results exist — still prints the summary of every collected result, and
exits with status 1. -/
theorem c9_run_interrupt (s : Session) (pat : String → Bool) (pythons : List String)
    (world : Nat → ExecOutcome) (kk : Nat) (i : VenvInstance)
    (hi : ((s.venv.instances pat []).filter
      (fun x => pythons.isEmpty || pythons.contains x.py))[kk]? = some i)
    (hw : world kk = ExecOutcome.interrupt)
    (hb : ∀ j, j < kk → world j ≠ ExecOutcome.interrupt ∧ world j ≠ ExecOutcome.fatal) :
    (s.run pat pythons world false).results =
      expectedResults world 0 (((s.venv.instances pat []).filter
        (fun x => pythons.isEmpty || pythons.contains x.py)).take kk) ++ [mkResult i 1] ∧
    (s.run pat pythons world false).results.length = kk + 1 ∧
    (s.run pat pythons world false).summary =
      some ((s.run pat pythons world false).results.map summaryLine) ∧
    (s.run pat pythons world false).exitCode = 1 := by
  have hloop := runLoop_interrupt world
    ((s.venv.instances pat []).filter (fun x => pythons.isEmpty || pythons.contains x.py))
    0 kk i hi (by rw [Nat.zero_add]; exact hw)
    (fun j hj => by rw [Nat.zero_add]; exact hb j hj)
  have hklen : kk < ((s.venv.instances pat []).filter
      (fun x => pythons.isEmpty || pythons.contains x.py)).length := by
    by_contra hge
    rw [List.getElem?_eq_none (by omega)] at hi
    exact Option.noConfusion hi
  have hrun : (s.run pat pythons world false) =
      ⟨expectedResults world 0 (((s.venv.instances pat []).filter
          (fun x => pythons.isEmpty || pythons.contains x.py)).take kk) ++ [mkResult i 1],
        some ((expectedResults world 0 (((s.venv.instances pat []).filter
          (fun x => pythons.isEmpty || pythons.contains x.py)).take kk) ++
            [mkResult i 1]).map summaryLine),
        if (expectedResults world 0 (((s.venv.instances pat []).filter
            (fun x => pythons.isEmpty || pythons.contains x.py)).take kk) ++
            [mkResult i 1]).any (fun r => r.code != 0) then 1 else 0⟩ := by
    simp only [Session.run]
    rw [hloop]
    rfl
  have hany : (expectedResults world 0 (((s.venv.instances pat []).filter
      (fun x => pythons.isEmpty || pythons.contains x.py)).take kk) ++
      [mkResult i 1]).any (fun r => r.code != 0) = true := by
    rw [List.any_append]
    have : (mkResult i 1).code = 1 := rfl
    simp [List.any_cons, this]
  refine ⟨by rw [hrun], ?_, by rw [hrun], by rw [hrun]; simp only; rw [if_pos hany]⟩
  rw [hrun]
  simp only [List.length_append, List.length_singleton]
  rw [expectedResults_length, List.length_take]
  omega

/-! ### Derived environment naming (C8) and shared-default aliasing (C3) -/

theorem string_append_cancel_left {s a b : String} (h : s ++ a = s ++ b) : a = b := by
  have hd := congrArg String.data h
  rw [String.data_append, String.data_append] at hd
  exact String.ext (List.append_cancel_left hd)

/-- C8 counterexample: two instances with the same interpreter whose
package assignments differ only in the characters stripped by rmchars
(here versions 1.2 and 12 of the same package) get the same derived
environment name, refuting the claimed distinctness. -/
theorem c8_counterexample :
    (VenvInstance.mk none "3.8" (some "c") [] [("a", some "1.2")]).py =
      (VenvInstance.mk none "3.8" (some "c") [] [("a", some "12")]).py ∧
    instPkgsDict (VenvInstance.mk none "3.8" (some "c") [] [("a", some "1.2")]).pkgs ≠
      instPkgsDict (VenvInstance.mk none "3.8" (some "c") [] [("a", some "12")]).pkgs ∧
    (mkResult (VenvInstance.mk none "3.8" (some "c") [] [("a", some "1.2")]) 0).venv_name =
      (mkResult (VenvInstance.mk none "3.8" (some "c") [] [("a", some "12")]) 0).venv_name := by
  refine ⟨rfl, ?_, rfl⟩
  decide

/-- C8 (amended): the derived environment name computed in Session.run
is a function of the interpreter version and the resolved package
assignments alone, so instances agreeing on both get identical names;
with the same interpreter, names are distinct whenever the normalized
underscore-joined package tokens (name followed by version stripped of
the characters < = > . ,) differ — distinct raw assignments may collide
exactly when those normalized tokens coincide. -/
theorem c8_derived_name (i1 i2 : VenvInstance) (x y : Int) (hpy : i1.py = i2.py) :
    (instPkgsDict i1.pkgs = instPkgsDict i2.pkgs →
      (mkResult i1 x).venv_name = (mkResult i2 y).venv_name) ∧
    (venvNameToken (instPkgsDict i1.pkgs) ≠ venvNameToken (instPkgsDict i2.pkgs) →
      (mkResult i1 x).venv_name ≠ (mkResult i2 y).venv_name) := by
  constructor
  · intro hd
    show derivedVenvName i1.py (instPkgsDict i1.pkgs) =
      derivedVenvName i2.py (instPkgsDict i2.pkgs)
    rw [hpy, hd]
  · intro htok heq
    have heq' : derivedVenvName i2.py (instPkgsDict i1.pkgs) =
        derivedVenvName i2.py (instPkgsDict i2.pkgs) := by
      have h0 : derivedVenvName i1.py (instPkgsDict i1.pkgs) =
          derivedVenvName i2.py (instPkgsDict i2.pkgs) := heq
      rw [hpy] at h0
      exact h0
    have hus : ("_" : String).length = 1 := rfl
    by_cases h1 : instPkgsDict i1.pkgs = []
    · by_cases h2 : instPkgsDict i2.pkgs = []
      · exact htok (by rw [h1, h2])
      · rw [derivedVenvName, derivedVenvName, if_pos (by rw [h1]; rfl),
          if_neg (by simp [List.isEmpty_iff, h2])] at heq'
        have hlen := congrArg String.length heq'
        rw [String.length_append, String.length_append, hus] at hlen
        omega
    · by_cases h2 : instPkgsDict i2.pkgs = []
      · rw [derivedVenvName, derivedVenvName,
          if_neg (by simp [List.isEmpty_iff, h1]), if_pos (by rw [h2]; rfl)] at heq'
        have hlen := congrArg String.length heq'
        rw [String.length_append, String.length_append, hus] at hlen
        omega
      · rw [derivedVenvName, derivedVenvName,
          if_neg (by simp [List.isEmpty_iff, h1]),
          if_neg (by simp [List.isEmpty_iff, h2])] at heq'
        exact htok (string_append_cancel_left heq')

/-- C3: the source violates the independent-ownership requirement.  The
fresh Venv() built inside resolve aliases the class-level shared default
dicts of attr.ib(default={}), so resolving a default-constructed child
against a parent with env entries mutates the observable env of that
child (the node resolve was called on), and the returned resolved node
aliases the shared default dict instead of owning fresh state. -/
theorem c3_resolve_mutates_shared_default :
    (VenvM.mk (some "c") none [] DictRef.shared DictRef.shared).envContents
        (VenvHeap.mk [] []) = [] ∧
    (VenvM.mk (some "c") none [] DictRef.shared DictRef.shared).envContents
        ((VenvM.resolve (VenvM.mk (some "c") none [] DictRef.shared DictRef.shared)
          [VenvM.mk (some "p") none [] (DictRef.own [])
            (DictRef.own [("K", [EnvVal.lit "v"])])]
          (VenvHeap.mk [] [])).2) = [("K", [EnvVal.lit "v"])] ∧
    (VenvM.mk (some "c") none [] DictRef.shared DictRef.shared).envContents
        ((VenvM.resolve (VenvM.mk (some "c") none [] DictRef.shared DictRef.shared)
          [VenvM.mk (some "p") none [] (DictRef.own [])
            (DictRef.own [("K", [EnvVal.lit "v"])])]
          (VenvHeap.mk [] [])).2) ≠
      (VenvM.mk (some "c") none [] DictRef.shared DictRef.shared).envContents
        (VenvHeap.mk [] []) ∧
    (VenvM.resolve (VenvM.mk (some "c") none [] DictRef.shared DictRef.shared)
      [VenvM.mk (some "p") none [] (DictRef.own [])
        (DictRef.own [("K", [EnvVal.lit "v"])])]
      (VenvHeap.mk [] [])).1.env = DictRef.shared := by
  refine ⟨rfl, rfl, ?_, rfl⟩
  intro h
  exact List.cons_ne_nil _ _ h

/-! ### Witnesses: the claim theorems applied at concrete inputs -/

theorem c1_run_failure_containment_witness :
    (wSess.run (fun _ => true) [] wWorldFail false).results.map VenvInstanceResult.code =
      [0, 2, 0] ∧
    (wSess.run (fun _ => true) [] wWorldFail false).results.length = 3 ∧
    (wSess.run (fun _ => true) [] wWorldFail false).exitCode = 1 := by
  have h := c1_run_failure_containment wSess (fun _ => true) [] wWorldFail
    (fun j => by by_cases hj : j = 1 <;> simp [wWorldFail, hj])
    (fun j => by by_cases hj : j = 1 <;> simp [wWorldFail, hj])
    (fun j st cd hh => by
      by_cases hj : j = 1
      · simp [wWorldFail, hj] at hh
        omega
      · simp [wWorldFail, hj] at hh)
  refine ⟨?_, ?_, ?_⟩
  · rw [h.1]
    rfl
  · rw [h.2.1]
    rfl
  · rfl

theorem c2_resolve_lastWrite_witness :
    (wVC.resolve [wVA, wVB]).name = some "C" ∧
    (wVC.resolve [wVA, wVB]).command = some "cmdB" ∧
    (wVC.resolve [wVA, wVB]).pys = ["3.8"] ∧
    dictLookup (wVC.resolve [wVA, wVB]).pkgs "p" = some [some "3"] ∧
    dictLookup (wVC.resolve [wVA, wVB]).pkgs "q" = some [some "2"] := by
  have h := (c2_resolve_lastWrite wVC [wVA, wVB] (by decide)).2 (by simp)
  exact ⟨h.1.trans rfl, h.2.1.trans rfl, h.2.2.1.trans rfl,
    (h.2.2.2.2 "p").trans rfl, (h.2.2.2.2 "q").trans rfl⟩

theorem c4_child_pruning_witness :
    ("x" : String) ≠ "" ∧
    ((fun s => s == "k") "x") = false ∧
    childrenInstances [wPruned, wMatchChild] (fun s => s == "k") [] =
      childrenInstances [wMatchChild] (fun s => s == "k") [] :=
  ⟨by decide, rfl,
    c4_child_pruning wPruned (fun s => s == "k") "x" rfl (by decide) rfl
      [] [wMatchChild] []⟩

theorem c5_not_runnable_passthrough_witness :
    wNonRun.instances (fun _ => true) [] =
      childrenInstances [wChild] (fun _ => true) [wNonRun] ∧
    (wChild.resolve [wNonRun]).pys = ["3.8"] ∧
    dictLookup (wChild.resolve [wNonRun]).env "E" = some [EnvVal.lit "x"] ∧
    dictLookup (wChild.resolve [wNonRun]).pkgs "p" = some [some "1"] := by
  have h := c5_not_runnable_passthrough wNonRun (fun _ => true) [] (Or.inl rfl) (by decide)
  exact ⟨h.1, (h.2.1 wChild rfl).trans rfl, (h.2.2.1 wChild rfl "E").trans rfl,
    (h.2.2.2 wChild rfl "p").trans rfl⟩

theorem c6_runnable_expansion_witness :
    wRun.instances (fun _ => true) [] =
      childrenInstances [] (fun _ => true) [wRun] ++ ownExpansion (wRun.resolve []) ∧
    (ownExpansion (wRun.resolve [])).length = 8 := by
  have h := c6_runnable_expansion wRun (fun _ => true) [] rfl (by decide)
  exact ⟨h.1, h.2.1.trans rfl⟩

theorem c8_derived_name_witness :
    (mkResult wIA 0).venv_name = (mkResult wIB 0).venv_name ∧
    (mkResult wIC 0).venv_name ≠ (mkResult wID 0).venv_name :=
  ⟨(c8_derived_name wIA wIB 0 0 rfl).1 rfl,
    (c8_derived_name wIC wID 0 0 rfl).2 (by decide)⟩

theorem c9_run_interrupt_witness :
    (wSess.run (fun _ => true) [] wWorldInt false).results.map VenvInstanceResult.code =
      [0, 1] ∧
    (wSess.run (fun _ => true) [] wWorldInt false).results.length = 2 ∧
    (wSess.run (fun _ => true) [] wWorldInt false).summary =
      some ((wSess.run (fun _ => true) [] wWorldInt false).results.map summaryLine) ∧
    (wSess.run (fun _ => true) [] wWorldInt false).exitCode = 1 := by
  have h := c9_run_interrupt wSess (fun _ => true) [] wWorldInt 1 wInstMid
    (by rfl) (by rfl)
    (fun j hj => by
      have hj0 : j = 0 := by omega
      subst hj0
      constructor <;> simp [wWorldInt])
  refine ⟨?_, h.2.1, h.2.2.1, h.2.2.2⟩
  rw [h.1]
  rfl

theorem c10_children_before_own_witness :
    wRoot.instances (fun _ => true) [] =
      childrenInstances [wMatchChild] (fun _ => true) [wRoot] ++
        ownExpansion (wRoot.resolve []) ∧
    childrenInstances [wMatchChild] (fun _ => true) [wRoot] =
      ([wMatchChild].map (fun c =>
        if childSkipped c (fun _ => true) then []
        else c.instances (fun _ => true) [wRoot])).flatten := by
  have h := c10_children_before_own wRoot (fun _ => true) [] rfl (by decide)
    ⟨wMatchChild, List.mem_singleton.mpr rfl, rfl⟩
  exact ⟨h.1, h.2⟩

end Riot
